import Mathlib

/-!
Verification of the atelier-assets daemon RPC service
(`src/daemon/src/asset_hub_service.rs`) against its specification.

The snapshot query methods of `AssetHubSnapshotImpl`, the listener
registration and delivery loop of `AssetHubImpl`, and the connection
acceptor of `AssetHubService` are embedded as pure Lean functions.
External collaborators that live outside the provided sources
(`capnp_db`, `asset_hub.rs`, `atelier_core::utils`, `FileAssetSource`)
are modelled from the specification, as noted on each definition.
-/

namespace AtelierService

/-- Event type sent from the writer to listener delivery queues
(`AssetBatchEvent` from `asset_hub.rs`; only the `Commit` variant is
used by this service). -/
inductive AssetBatchEvent where
  | Commit
deriving DecidableEq, Repr

/-- Error kinds of `crate::Error` that the embedded service code can
produce: `UuidLength` for asset-id slices whose length is not 16, and
`RegenError` standing for any error returned by
`FileAssetSource::regenerate_import_artifact`. -/
inductive Error where
  | UuidLength
  | RegenError
deriving DecidableEq, Repr

/-- Outcome of one embedded RPC method body: normal return, an `Err`
propagated with `?`, or a Rust panic (`expect`/`unwrap`). -/
inductive RpcOutcome (α : Type) where
  | ok : α → RpcOutcome α
  | err : Error → RpcOutcome α
  | panic : RpcOutcome α
deriving DecidableEq, Repr

/-- A reference stored in an artifact's `load_deps` list
(`parse_db_asset_ref` result): either a 16-byte uuid or a path
reference. -/
inductive DbAssetRef where
  | uuid : List Nat → DbAssetRef
  | path : List Nat → DbAssetRef
deriving DecidableEq, Repr

/-- The `expect_uuid` accessor on a parsed asset ref: `some` on the
uuid variant, `none` where the Rust code panics. -/
def expect_uuid : DbAssetRef → Option (List Nat)
  | .uuid u => some u
  | .path _ => none

/-- The single-variant `AssetSource` enumeration of the wire schema. -/
inductive AssetSource where
  | File
deriving DecidableEq, Repr

/-- The part of an artifact descriptor the service reads: its
`load_deps` list. -/
structure ArtifactMetadata where
  loadDeps : List DbAssetRef
deriving DecidableEq, Repr

/-- An asset metadata record as read from the store: its 16-byte id,
its source tag, and the `latest_artifact` union (`some` models the
`Artifact(Ok _)` branch the code destructures; `none` models the other
branches). -/
structure AssetMetadata where
  id : List Nat
  source : AssetSource
  latestArtifact : Option ArtifactMetadata
deriving DecidableEq, Repr

/-- The `load_deps` the dependency walk enumerates for one record:
present only when the record's `latest_artifact` is the
`Artifact(Ok _)` variant. -/
def depsOf (m : AssetMetadata) : List DbAssetRef :=
  match m.latestArtifact with
  | some a => a.loadDeps
  | none => []

/-- The metadata table visible under one pinned read transaction,
as an association list from 16-byte ids to records. -/
abbrev MetaDb := List (List Nat × AssetMetadata)

/-- Modelled from the spec: `AssetHub::get_metadata(txn, id)`
(`asset_hub.rs`, outside the provided sources) — the per-AssetId record
lookup under the pinned transaction, `None` when the id has no record. -/
def dbGet (db : MetaDb) (u : List Nat) : Option AssetMetadata :=
  (db.find? (fun e => e.1 = u)).map (fun e => e.2)

/-- The store keys each record by its own AssetId (spec §3: every asset
has exactly one id; records are per-AssetId). -/
def dbCoherent (db : MetaDb) : Prop :=
  ∀ e ∈ db, e.2.id = e.1

instance (db : MetaDb) : Decidable (dbCoherent db) := by
  unfold dbCoherent; infer_instance

/-- Modelled from the spec: `atelier_core::utils::uuid_from_slice`
(crate code outside the provided sources) — returns the 16-byte asset
id when the slice length is 16, `None` otherwise (spec §7: AssetId
bytes ≠ 16 ⇒ `InvalidIdLength`). -/
def uuid_from_slice (b : List Nat) : Option (List Nat) :=
  if b.length = 16 then some b else none

/-- A serialized artifact produced by regeneration
(`SerializedAsset`); the service forwards its bytes verbatim, so only
the payload is modelled. -/
structure SerializedAsset where
  data : List Nat
deriving DecidableEq, Repr

/-- Embeds `AssetHubSnapshotImpl::get_asset_metadata`: validate each
id, look it up, silently drop misses, and build the response only
after the whole loop succeeds. -/
def get_asset_metadata (db : MetaDb) : List (List Nat) → RpcOutcome (List AssetMetadata)
  | [] => .ok []
  | i :: rest =>
    match uuid_from_slice i with
    | none => .err .UuidLength
    | some u =>
      match get_asset_metadata db rest with
      | .ok tail =>
        match dbGet db u with
        | some m => .ok (m :: tail)
        | none => .ok tail
      | r => r

/-- HashMap-style insert used by the dependency query: the map is
keyed by AssetId and both inserts of one key carry the same looked-up
record, so inserting is a no-op when the key is present. -/
def insertIfAbsent (ms : List (List Nat × AssetMetadata)) (u : List Nat) (m : AssetMetadata) :
    List (List Nat × AssetMetadata) :=
  if ms.any (fun e => e.1 = u) then ms else ms ++ [(u, m)]

/-- First loop of `get_asset_metadata_with_dependencies`: validate and
resolve every requested id into the `metadatas` map. -/
def resolveRequested (db : MetaDb) (acc : List (List Nat × AssetMetadata)) :
    List (List Nat) → RpcOutcome (List (List Nat × AssetMetadata))
  | [] => .ok acc
  | i :: rest =>
    match uuid_from_slice i with
    | none => .err .UuidLength
    | some u =>
      match dbGet db u with
      | some m => resolveRequested db (insertIfAbsent acc u m) rest
      | none => resolveRequested db acc rest

/-- Inner dependency walk of one resolved record: every dep is parsed
and `expect_uuid`-ed (panicking on non-uuid variants); deps not already
resolved are collected into the `missing_metadata` set. -/
def collectMissingFromDeps (msKeys : List (List Nat)) (acc : List (List Nat)) :
    List DbAssetRef → RpcOutcome (List (List Nat))
  | [] => .ok acc
  | d :: rest =>
    match expect_uuid d with
    | none => .panic
    | some du =>
      if msKeys.contains du ∨ acc.contains du then
        collectMissingFromDeps msKeys acc rest
      else
        collectMissingFromDeps msKeys (acc ++ [du]) rest

/-- Second loop of `get_asset_metadata_with_dependencies`: walk the
`load_deps` of every resolved record, accumulating the missing set. -/
def collectMissing (msKeys : List (List Nat)) (acc : List (List Nat)) :
    List (List Nat × AssetMetadata) → RpcOutcome (List (List Nat))
  | [] => .ok acc
  | p :: rest =>
    match collectMissingFromDeps msKeys acc (depsOf p.2) with
    | .ok acc2 => collectMissing msKeys acc2 rest
    | .err e => .err e
    | .panic => .panic

/-- Third loop of `get_asset_metadata_with_dependencies`: look up each
collected dep and insert it when present. -/
def resolveMissing (db : MetaDb) (ms : List (List Nat × AssetMetadata)) :
    List (List Nat) → List (List Nat × AssetMetadata)
  | [] => ms
  | d :: rest =>
    match dbGet db d with
    | some m => resolveMissing db (insertIfAbsent ms d m) rest
    | none => resolveMissing db ms rest

/-- Embeds `AssetHubSnapshotImpl::get_asset_metadata_with_dependencies`:
resolve the requested ids, walk each resolved record's `load_deps` one
hop, resolve the deps found missing, and emit the map's values. -/
def get_asset_metadata_with_dependencies (db : MetaDb) (ids : List (List Nat)) :
    RpcOutcome (List AssetMetadata) :=
  match resolveRequested db [] ids with
  | .ok ms =>
    match collectMissing (ms.map Prod.fst) [] ms with
    | .ok missing => .ok ((resolveMissing db ms missing).map Prod.snd)
    | .err e => .err e
    | .panic => .panic
  | .err e => .err e
  | .panic => .panic

/-- Embeds `AssetHubSnapshotImpl::get_import_artifacts`: validate each
id, look up its record, and for `File`-sourced records call the file
source's regeneration (`regen` models
`FileAssetSource::regenerate_import_artifact`, which may fail); the
response is built only after the whole loop succeeds. -/
def get_import_artifacts (db : MetaDb) (regen : List Nat → Except Error SerializedAsset) :
    List (List Nat) → RpcOutcome (List SerializedAsset)
  | [] => .ok []
  | i :: rest =>
    match uuid_from_slice i with
    | none => .err .UuidLength
    | some u =>
      match dbGet db u with
      | none => get_import_artifacts db regen rest
      | some m =>
        match m.source with
        | .File =>
          match regen u with
          | .error e => .err e
          | .ok a =>
            match get_import_artifacts db regen rest with
            | .ok tail => .ok (a :: tail)
            | r => r

/-- A change-log record as stored: its 8-byte key and an opaque
payload forwarded verbatim. -/
structure ChangeLogEntry where
  key : List Nat
  payload : Nat
deriving DecidableEq, Repr

/-- The 8-byte little-endian encoding produced by
`u64::to_le_bytes` on the `start` parameter. -/
def toLeBytes8 (n : Nat) : List Nat :=
  [n % 256, n / 2 ^ 8 % 256, n / 2 ^ 16 % 256, n / 2 ^ 24 % 256,
   n / 2 ^ 32 % 256, n / 2 ^ 40 % 256, n / 2 ^ 48 % 256, n / 2 ^ 56 % 256]

/-- The numeric value of a little-endian byte string. -/
def fromLeBytes8 (l : List Nat) : Nat :=
  l.foldr (fun b acc => b + 256 * acc) 0

/-- Modelled from the spec: `capnp_iter_from` on the change-log table
of `capnp_db` (outside the provided sources) — positions a cursor at
the first key not below the given key and iterates forward; keys are
8-byte sequence numbers compared in key order (spec §3/§6: the
little-endian keys preserve ordering under the store's iteration). -/
def changes_iter_from (log : List ChangeLogEntry) (key : List Nat) : List ChangeLogEntry :=
  log.dropWhile (fun e => fromLeBytes8 e.key < fromLeBytes8 key)

/-- The value of `usize::MAX` substituted for a zero `count`
(`std::usize::MAX` on the 64-bit targets the daemon runs on). -/
def usizeMax : Nat := 2 ^ 64 - 1

/-- Embeds `AssetHubSnapshotImpl::get_asset_changes`: iterate from the
little-endian encoding of `start`, taking `count` entries, with
`count == 0` replaced by `usize::MAX`. -/
def get_asset_changes (log : List ChangeLogEntry) (start count : Nat) : List ChangeLogEntry :=
  (changes_iter_from log (toLeBytes8 start)).take (if count = 0 then usizeMax else count)

/-- A UTF-8 continuation byte. -/
def isCont (c : Nat) : Prop := 128 ≤ c ∧ c < 192

instance (c : Nat) : Decidable (isCont c) := by
  unfold isCont; infer_instance

/-- Length of the valid UTF-8 sequence at the head of the byte string,
`none` when the head starts no valid sequence. Models the sequence
recognition of Rust's `String::from_utf8_lossy`, which
`Path::to_string_lossy` applies to the path's native bytes (rejecting
overlong forms, surrogates and values above U+10FFFF). -/
def utf8SeqLen : List Nat → Option Nat
  | [] => none
  | b :: rest =>
    if b < 128 then some 1
    else if b < 194 then none
    else if b < 224 then
      match rest with
      | c1 :: _ => if isCont c1 then some 2 else none
      | [] => none
    else if b < 240 then
      match rest with
      | c1 :: c2 :: _ =>
        if isCont c1 ∧ isCont c2 ∧ (b ≠ 224 ∨ 160 ≤ c1) ∧ (b ≠ 237 ∨ c1 < 160) then some 3
        else none
      | _ => none
    else if b < 245 then
      match rest with
      | c1 :: c2 :: c3 :: _ =>
        if isCont c1 ∧ isCont c2 ∧ isCont c3 ∧ (b ≠ 240 ∨ 144 ≤ c1) ∧ (b ≠ 244 ∨ c1 < 144) then
          some 4
        else none
      | _ => none
    else none

/-- Fuel-indexed lossy UTF-8 conversion: valid sequences are copied
verbatim, an invalid byte is replaced by the UTF-8 encoding of U+FFFD
(`EF BF BD`). Models `String::from_utf8_lossy` (with one replacement
per invalid byte; the replacement granularity over multi-byte invalid
prefixes does not affect the inputs reasoned about here). -/
def utf8LossyFuel : Nat → List Nat → List Nat
  | 0, _ => []
  | _ + 1, [] => []
  | fuel + 1, b :: rest =>
    match utf8SeqLen (b :: rest) with
    | some k => (b :: rest).take k ++ utf8LossyFuel fuel ((b :: rest).drop k)
    | none => 239 :: 191 :: 189 :: utf8LossyFuel fuel rest

/-- The lossy UTF-8 conversion applied by `path.to_string_lossy()` to
the path's native bytes before they are written into the response. -/
def utf8Lossy (l : List Nat) : List Nat :=
  utf8LossyFuel (l.length + 1) l

/-- Fuel-indexed UTF-8 validity check matching `utf8LossyFuel`. -/
def utf8ValidFuel : Nat → List Nat → Bool
  | 0, _ => false
  | _ + 1, [] => true
  | fuel + 1, l =>
    match utf8SeqLen l with
    | some k => utf8ValidFuel fuel (l.drop k)
    | none => false

/-- A byte string is valid UTF-8 when it parses as a sequence of valid
UTF-8 sequences. -/
def validUtf8 (l : List Nat) : Bool :=
  utf8ValidFuel (l.length + 1) l

/-- Embeds `AssetHubSnapshotImpl::get_path_for_assets`: validate each
id, ask the file source for its path (`pdb` models
`FileAssetSource::get_asset_path` under the pinned transaction,
outside the provided sources), drop misses, and emit each pair as the
original id bytes with `path.to_string_lossy()` of the path bytes. -/
def get_path_for_assets (pdb : List Nat → Option (List Nat)) :
    List (List Nat) → RpcOutcome (List (List Nat × List Nat))
  | [] => .ok []
  | i :: rest =>
    match uuid_from_slice i with
    | none => .err .UuidLength
    | some u =>
      match get_path_for_assets pdb rest with
      | .ok tail =>
        match pdb u with
        | some p => .ok ((i, utf8Lossy p) :: tail)
        | none => .ok tail
      | r => r

/-- Modelled from the spec: one committed state of the store
`Environment` (outside the provided sources) — the metadata table and
the change log visible under one read transaction. A snapshot obtained
by `AssetHubImpl::get_snapshot` pins one such state for its whole
lifetime (spec §4.1). -/
structure CommittedState where
  metaDb : MetaDb
  changeLog : List ChangeLogEntry
deriving DecidableEq, Repr

/-- Modelled from the spec: `AssetHub::get_latest_asset_change(txn)`
(`asset_hub.rs`, outside the provided sources) — the greatest
change-log sequence number visible under the pinned transaction
(spec §3 invariants), zero on an empty log. -/
def get_latest_asset_change (st : CommittedState) : Nat :=
  (st.changeLog.map (fun e => fromLeBytes8 e.key)).foldr max 0

/-- A writer batch: the asset records it introduces. -/
structure Batch where
  newAssets : List (List Nat × AssetMetadata)
deriving DecidableEq, Repr

/-- The sequence number the writer assigns to a batch committed on top
of `st`: change-log numbers are dense and strictly increasing
(spec §3 invariants). -/
def batchSeq (st : CommittedState) : Nat :=
  get_latest_asset_change st + 1

/-- Modelled from the spec: committing a batch appends its records to
the metadata table and appends one change-log entry carrying the
batch's sequence number (spec §3: append-only change log; batch-commit
advances the sequence by one). -/
def commitBatch (st : CommittedState) (b : Batch) : CommittedState :=
  { metaDb := st.metaDb ++ b.newAssets
    changeLog := st.changeLog ++ [⟨toLeBytes8 (batchSeq st), 0⟩] }

/-- Socket options set on an accepted TCP stream by the accept loop. -/
structure SocketConfig where
  nodelay : Bool
  sendBufferSize : Nat
  recvBufferSize : Nat
deriving DecidableEq, Repr

/-- The I/O endpoints available in the body of the accept loop: the
two halves of the accepted TCP stream, and the two halves of the
in-memory pipe returned by `utils::async_channel()`. -/
inductive IoEndpoint where
  | tcpStreamRead
  | tcpStreamWrite
  | asyncChannelRead
  | asyncChannelWrite
deriving DecidableEq, Repr

/-- What one iteration of the accept loop wires up: the socket options
applied to the accepted stream, and which endpoints are passed to
`spawn_rpc` as the reader and writer of the per-connection RPC
system. -/
structure ConnectionWiring where
  socket : SocketConfig
  rpcReader : IoEndpoint
  rpcWriter : IoEndpoint
deriving DecidableEq, Repr

/-- Embeds the body of the accept loop in `AssetHubService::run`: the
accepted stream gets `set_nodelay(true)` and 4 MiB send/receive
buffers, then `let (writer, reader) = utils::async_channel()` is
called and those channel halves — not the stream's halves — are passed
to `spawn_rpc`; the stream itself is dropped at the end of the
iteration. -/
def accept_connection : ConnectionWiring :=
  { socket := { nodelay := true, sendBufferSize := 2 ^ 22, recvBufferSize := 2 ^ 22 }
    rpcReader := .asyncChannelRead
    rpcWriter := .asyncChannelWrite }

/-- A bounded mpsc channel: its capacity and the queued events. -/
structure Channel where
  capacity : Nat
  buffer : List AssetBatchEvent
deriving DecidableEq, Repr

/-- `tokio::sync::mpsc::channel(cap)`: a fresh empty bounded queue. -/
def mpsc_channel (cap : Nat) : Channel :=
  ⟨cap, []⟩

/-- `Sender::try_send`: enqueue when the buffer is below capacity,
fail with `none` when full (the code calls `.unwrap()` on this,
panicking on `none`). -/
def try_send (c : Channel) (e : AssetBatchEvent) : Option Channel :=
  if c.buffer.length < c.capacity then some { c with buffer := c.buffer ++ [e] } else none

/-- The hub's listener registry: registered delivery-queue senders
keyed by a registration handle. -/
structure HubListeners where
  nextId : Nat
  listeners : List (Nat × Channel)
deriving DecidableEq, Repr

/-- Modelled from the spec: `AssetHub::register_listener(tx)`
(`asset_hub.rs`, outside the provided sources) — records the queue
sender in the registry and returns the handle later passed to
`drop_listener` (spec §4.2 registration protocol, step 4). -/
def hub_register_listener (h : HubListeners) (c : Channel) : HubListeners × Nat :=
  ({ nextId := h.nextId + 1, listeners := h.listeners ++ [(h.nextId, c)] }, h.nextId)

/-- Modelled from the spec: `AssetHub::drop_listener` (`asset_hub.rs`,
outside the provided sources) — deregisters the listener with the
given handle (spec §4.2: "calls `drop_listener` on the broadcaster to
deregister"). -/
def drop_listener (h : HubListeners) (id : Nat) : HubListeners :=
  { h with listeners := h.listeners.filter (fun e => ¬ e.1 = id) }

/-- Embeds `AssetHubImpl::register_listener` up to the spawn of the
delivery task: allocate a bounded queue of capacity 16, immediately
`try_send(Commit).unwrap()` into it (`none` models the panic), then
register the sender with the hub. Returns the new registry, the
registration handle, and the queue as spawned. -/
def register_listener (h : HubListeners) : Option (HubListeners × Nat × Channel) :=
  let c := mpsc_channel 16
  match try_send c AssetBatchEvent.Commit with
  | none => none
  | some c2 =>
    let r := hub_register_listener h c2
    some (r.1, r.2, c2)

/-- How the delivery loop spawned by `register_listener` exited:
`queueClosed` when `rx.recv()` returned `None`, `sendFailed` when an
`update` send on the listener capability failed. -/
inductive LoopExit where
  | queueClosed
  | sendFailed
deriving DecidableEq, Repr

/-- Embeds the per-listener delivery loop of
`AssetHubImpl::register_listener`: each received event leads to one
`update` send whose success is given by the corresponding entry of
`sends`; on a failed send the loop calls `drop_listener` and breaks,
and when the queue closes (`sends` exhausted) it exits cleanly.
Returns the final registry, the exit kind, and the number of sends
attempted. -/
def delivery_loop (h : HubListeners) (id : Nat) : List Bool → HubListeners × LoopExit × Nat
  | [] => (h, .queueClosed, 0)
  | sendOk :: rest =>
    if sendOk then
      let r := delivery_loop h id rest
      (r.1, r.2.1, r.2.2 + 1)
    else
      (drop_listener h id, .sendFailed, 1)

/-- Follows the spec's words (§4.1, GetAssetMetadataWithDependencies),
for comparison with the embedded implementation: the result ids are
the resolved requested assets together with, one hop only, the
resolvable assets named in each resolved requested asset's latest
artifact's `load_deps`; deps of deps are not included. Stated for
requests whose ids are well-formed (16 bytes), where the requested
uuids are the id byte strings themselves. -/
def specWithDepsIds (db : MetaDb) (ids : List (List Nat)) (x : List Nat) : Prop :=
  (dbGet db x).isSome = true ∧
    (x ∈ ids ∨ ∃ u ∈ ids, ∃ m, dbGet db u = some m ∧ DbAssetRef.uuid x ∈ depsOf m)

/-- Whether the record an id resolves to carries a non-uuid reference
in its latest artifact's `load_deps`. -/
def hasNonUuidDep (db : MetaDb) (i : List Nat) : Bool :=
  match dbGet db i with
  | some m => (depsOf m).any (fun d => (expect_uuid d).isNone)
  | none => false

/-- A well-formed 16-byte asset id made of one repeated byte. -/
def sampleId (k : Nat) : List Nat := List.replicate 16 k

/-- Store with one `File`-sourced asset, used to exercise the
artifact-regeneration error path. -/
def regenFailDb : MetaDb := [(sampleId 1, ⟨sampleId 1, .File, none⟩)]

/-- A regeneration oracle that fails for the one asset of
`regenFailDb` (the `Err` branch of
`FileAssetSource::regenerate_import_artifact`). -/
def regenFail (u : List Nat) : Except Error SerializedAsset :=
  if u = sampleId 1 then .error .RegenError else .ok ⟨[]⟩

/-- Path index mapping one asset to a path whose single byte `0xFF`
is not valid UTF-8. -/
def lossyPathDb (u : List Nat) : Option (List Nat) :=
  if u = sampleId 2 then some [255] else none

/-- Path index mapping one asset to the ASCII path `foo`. -/
def asciiPathDb (u : List Nat) : Option (List Nat) :=
  if u = sampleId 3 then some [102, 111, 111] else none

/-- A committed store state holding one asset and one change-log
entry with sequence number 1. -/
def sampleState : CommittedState :=
  ⟨[(sampleId 4, ⟨sampleId 4, .File, none⟩)], [⟨toLeBytes8 1, 0⟩]⟩

/-- A writer batch introducing one fresh asset on top of
`sampleState`. -/
def sampleBatch : Batch := ⟨[(sampleId 5, ⟨sampleId 5, .File, none⟩)]⟩

/-- Store used to exercise the one-hop dependency walk: `R` depends on
`D1` and `D2`, `D1` depends on `D3`; all four assets have records. -/
def oneHopDb : MetaDb :=
  [(sampleId 6, ⟨sampleId 6, .File, some ⟨[.uuid (sampleId 7), .uuid (sampleId 8)]⟩⟩),
   (sampleId 7, ⟨sampleId 7, .File, some ⟨[.uuid (sampleId 9)]⟩⟩),
   (sampleId 8, ⟨sampleId 8, .File, none⟩),
   (sampleId 9, ⟨sampleId 9, .File, none⟩)]

/-- Store with one asset whose artifact carries a path-variant
dependency reference. -/
def nonUuidDepDb : MetaDb :=
  [(sampleId 10, ⟨sampleId 10, .File, some ⟨[.path [1, 2]]⟩⟩)]

/-- A metadata table used for plain lookup witnesses: two assets. -/
def lookupDb : MetaDb :=
  [(sampleId 11, ⟨sampleId 11, .File, none⟩), (sampleId 12, ⟨sampleId 12, .File, none⟩)]

/-- A change log holding sequence numbers 1, 2 and 3 in key order. -/
def sampleLog : List ChangeLogEntry :=
  [⟨toLeBytes8 1, 0⟩, ⟨toLeBytes8 2, 10⟩, ⟨toLeBytes8 3, 20⟩]

/-- A listener registry holding one registered listener. -/
def sampleHub : HubListeners := ⟨1, [(0, ⟨16, []⟩)]⟩

/-- A regeneration oracle that always succeeds. -/
def okRegen : List Nat → Except Error SerializedAsset := fun _ => .ok ⟨[]⟩

/-- A path index with no entries. -/
def emptyPathDb : List Nat → Option (List Nat) := fun _ => none

theorem dbGet_mem {db : MetaDb} {u : List Nat} {m : AssetMetadata}
    (h : dbGet db u = some m) : (u, m) ∈ db := by
  simp only [dbGet, Option.map_eq_some'] at h
  obtain ⟨e, hf, he⟩ := h
  have hmem := List.mem_of_find?_eq_some hf
  have hp := List.find?_some hf
  simp only [decide_eq_true_eq] at hp
  obtain ⟨a, b⟩ := e
  simp only at hp he
  subst hp
  subst he
  exact hmem

theorem dbGet_append (l1 l2 : MetaDb) (x : List Nat) (h : dbGet l1 x = none) :
    dbGet (l1 ++ l2) x = dbGet l2 x := by
  induction l1 with
  | nil => rfl
  | cons e rest ih =>
    by_cases hx : e.1 = x
    · simp [dbGet, hx] at h
    · simp only [dbGet, List.cons_append] at h ⊢
      rw [List.find?_cons_of_neg] at h ⊢
      · exact ih h
      · simpa using hx
      · simpa using hx

theorem dbGet_isSome_of_mem (l : MetaDb) (x : List Nat) (m : AssetMetadata)
    (h : (x, m) ∈ l) : (dbGet l x).isSome = true := by
  induction l with
  | nil => simp at h
  | cons e rest ih =>
    simp only [dbGet]
    by_cases hx : e.1 = x
    · rw [List.find?_cons_of_pos]
      · rfl
      · simpa using hx
    · rw [List.find?_cons_of_neg]
      · rcases List.mem_cons.mp h with h1 | h1
        · exact absurd (congrArg Prod.fst h1.symm) hx
        · exact ih h1
      · simpa using hx

theorem get_asset_metadata_eq (db : MetaDb) (ids : List (List Nat))
    (h16 : ∀ i ∈ ids, i.length = 16) :
    get_asset_metadata db ids = .ok (ids.filterMap (fun i => dbGet db i)) := by
  induction ids with
  | nil => rfl
  | cons i rest ih =>
    have hi : i.length = 16 := h16 i (List.mem_cons_self i rest)
    have hr := ih (fun j hj => h16 j (List.mem_cons_of_mem i hj))
    simp only [get_asset_metadata, uuid_from_slice, hi, if_pos, hr, List.filterMap_cons]
    cases hd : dbGet db i <;> simp [hd]

theorem get_asset_metadata_err (db : MetaDb) (ids : List (List Nat))
    (hbad : ∃ i ∈ ids, ¬ i.length = 16) :
    get_asset_metadata db ids = .err .UuidLength := by
  induction ids with
  | nil => simp at hbad
  | cons i rest ih =>
    by_cases hi : i.length = 16
    · have hbr : ∃ j ∈ rest, ¬ j.length = 16 := by
        rcases hbad with ⟨j, hj, hlen⟩
        rcases List.mem_cons.mp hj with h1 | h1
        · exact absurd (h1 ▸ hi) hlen
        · exact ⟨j, h1, hlen⟩
      simp [get_asset_metadata, uuid_from_slice, hi, ih hbr]
    · simp [get_asset_metadata, uuid_from_slice, hi]

theorem resolveRequested_err (db : MetaDb) (ids : List (List Nat))
    (hbad : ∃ i ∈ ids, ¬ i.length = 16) :
    ∀ acc, resolveRequested db acc ids = .err .UuidLength := by
  induction ids with
  | nil => simp at hbad
  | cons i rest ih =>
    intro acc
    by_cases hi : i.length = 16
    · have hbr : ∃ j ∈ rest, ¬ j.length = 16 := by
        rcases hbad with ⟨j, hj, hlen⟩
        rcases List.mem_cons.mp hj with h1 | h1
        · exact absurd (h1 ▸ hi) hlen
        · exact ⟨j, h1, hlen⟩
      cases hd : dbGet db i <;>
        simp [resolveRequested, uuid_from_slice, hi, hd, ih hbr]
    · simp [resolveRequested, uuid_from_slice, hi]

theorem get_asset_metadata_with_dependencies_err (db : MetaDb) (ids : List (List Nat))
    (hbad : ∃ i ∈ ids, ¬ i.length = 16) :
    get_asset_metadata_with_dependencies db ids = .err .UuidLength := by
  simp [get_asset_metadata_with_dependencies, resolveRequested_err db ids hbad []]

theorem get_path_for_assets_err (pdb : List Nat → Option (List Nat)) (ids : List (List Nat))
    (hbad : ∃ i ∈ ids, ¬ i.length = 16) :
    get_path_for_assets pdb ids = .err .UuidLength := by
  induction ids with
  | nil => simp at hbad
  | cons i rest ih =>
    by_cases hi : i.length = 16
    · have hbr : ∃ j ∈ rest, ¬ j.length = 16 := by
        rcases hbad with ⟨j, hj, hlen⟩
        rcases List.mem_cons.mp hj with h1 | h1
        · exact absurd (h1 ▸ hi) hlen
        · exact ⟨j, h1, hlen⟩
      simp [get_path_for_assets, uuid_from_slice, hi, ih hbr]
    · simp [get_path_for_assets, uuid_from_slice, hi]

theorem get_path_for_assets_eq (pdb : List Nat → Option (List Nat)) (ids : List (List Nat))
    (h16 : ∀ i ∈ ids, i.length = 16) :
    get_path_for_assets pdb ids =
      .ok (ids.filterMap (fun i => (pdb i).map (fun p => (i, utf8Lossy p)))) := by
  induction ids with
  | nil => rfl
  | cons i rest ih =>
    have hi : i.length = 16 := h16 i (List.mem_cons_self i rest)
    have hr := ih (fun j hj => h16 j (List.mem_cons_of_mem i hj))
    simp only [get_path_for_assets, uuid_from_slice, hi, if_pos, hr, List.filterMap_cons]
    cases hd : pdb i <;> simp [hd]

theorem get_import_artifacts_err (db : MetaDb)
    (regen : List Nat → Except Error SerializedAsset) (ids : List (List Nat))
    (hbad : ∃ i ∈ ids, ¬ i.length = 16) :
    ∃ e, get_import_artifacts db regen ids = .err e := by
  induction ids with
  | nil => simp at hbad
  | cons i rest ih =>
    by_cases hi : i.length = 16
    · have hbr : ∃ j ∈ rest, ¬ j.length = 16 := by
        rcases hbad with ⟨j, hj, hlen⟩
        rcases List.mem_cons.mp hj with h1 | h1
        · exact absurd (h1 ▸ hi) hlen
        · exact ⟨j, h1, hlen⟩
      obtain ⟨e, he⟩ := ih hbr
      cases hd : dbGet db i with
      | none =>
        exact ⟨e, by simp [get_import_artifacts, uuid_from_slice, hi, hd, he]⟩
      | some m =>
        cases hsrc : m.source
        cases hre : regen i with
        | error e2 =>
          exact ⟨e2, by simp [get_import_artifacts, uuid_from_slice, hi, hd, hsrc, hre]⟩
        | ok a =>
          exact ⟨e, by simp [get_import_artifacts, uuid_from_slice, hi, hd, hsrc, hre, he]⟩
    · exact ⟨.UuidLength, by simp [get_import_artifacts, uuid_from_slice, hi]⟩

theorem get_import_artifacts_err_uuid (db : MetaDb)
    (regen : List Nat → Except Error SerializedAsset) (ids : List (List Nat))
    (hok : ∀ u, ∃ a, regen u = .ok a)
    (hbad : ∃ i ∈ ids, ¬ i.length = 16) :
    get_import_artifacts db regen ids = .err .UuidLength := by
  induction ids with
  | nil => simp at hbad
  | cons i rest ih =>
    by_cases hi : i.length = 16
    · have hbr : ∃ j ∈ rest, ¬ j.length = 16 := by
        rcases hbad with ⟨j, hj, hlen⟩
        rcases List.mem_cons.mp hj with h1 | h1
        · exact absurd (h1 ▸ hi) hlen
        · exact ⟨j, h1, hlen⟩
      cases hd : dbGet db i with
      | none => simp [get_import_artifacts, uuid_from_slice, hi, hd, ih hbr]
      | some m =>
        cases hsrc : m.source
        obtain ⟨a, ha⟩ := hok i
        simp [get_import_artifacts, uuid_from_slice, hi, hd, hsrc, ha, ih hbr]
    · simp [get_import_artifacts, uuid_from_slice, hi]

theorem utf8SeqLen_pos : ∀ l k, utf8SeqLen l = some k → 1 ≤ k := by
  intro l k h
  cases l with
  | nil => simp [utf8SeqLen] at h
  | cons b rest =>
    simp only [utf8SeqLen] at h
    repeat' split at h
    all_goals first
      | (injection h with h2; omega)
      | exact Option.noConfusion h

theorem utf8LossyFuel_of_valid :
    ∀ fuel (l : List Nat), l.length ≤ fuel → utf8ValidFuel (fuel + 1) l = true →
      utf8LossyFuel (fuel + 1) l = l := by
  intro fuel
  induction fuel with
  | zero =>
    intro l hl _
    have h0 : l = [] := List.length_eq_zero.mp (Nat.le_zero.mp hl)
    subst h0
    rfl
  | succ f ih =>
    intro l hl hv
    cases l with
    | nil => rfl
    | cons b rest =>
      cases hk : utf8SeqLen (b :: rest) with
      | none =>
        rw [show utf8ValidFuel (f + 1 + 1) (b :: rest) =
          (match utf8SeqLen (b :: rest) with
           | some k => utf8ValidFuel (f + 1) ((b :: rest).drop k)
           | none => false) from rfl, hk] at hv
        exact absurd hv (by simp)
      | some k =>
        have hpos := utf8SeqLen_pos _ _ hk
        have hlen : ((b :: rest).drop k).length ≤ f := by
          simp only [List.length_drop, List.length_cons] at hl ⊢
          omega
        have hv2 : utf8ValidFuel (f + 1) ((b :: rest).drop k) = true := by
          simpa only [utf8ValidFuel, hk] using hv
        calc utf8LossyFuel (f + 1 + 1) (b :: rest)
            = (b :: rest).take k ++ utf8LossyFuel (f + 1) ((b :: rest).drop k) := by
              simp only [utf8LossyFuel, hk]
          _ = (b :: rest).take k ++ (b :: rest).drop k := by rw [ih _ hlen hv2]
          _ = b :: rest := List.take_append_drop k (b :: rest)

theorem utf8Lossy_of_valid (l : List Nat) (h : validUtf8 l = true) : utf8Lossy l = l :=
  utf8LossyFuel_of_valid l.length l (Nat.le_refl _) h

theorem fromLe_toLe (n : Nat) (h : n < 2 ^ 64) : fromLeBytes8 (toLeBytes8 n) = n := by
  simp only [toLeBytes8, fromLeBytes8, List.foldr]
  omega

theorem dropWhile_lt_eq_filter (s : Nat) (log : List ChangeLogEntry)
    (hs : log.Pairwise (fun a b => fromLeBytes8 a.key < fromLeBytes8 b.key)) :
    log.dropWhile (fun e => fromLeBytes8 e.key < s) =
      log.filter (fun e => s ≤ fromLeBytes8 e.key) := by
  induction log with
  | nil => rfl
  | cons e rest ih =>
    rcases List.pairwise_cons.mp hs with ⟨he, hrest⟩
    by_cases hk : fromLeBytes8 e.key < s
    · rw [List.dropWhile_cons, if_pos (by simpa using hk),
        List.filter_cons_of_neg]
      · exact ih hrest
      · simpa using Nat.not_le.mpr hk
    · rw [List.dropWhile_cons, if_neg (by simpa using hk),
        List.filter_cons_of_pos]
      · have hall : rest.filter (fun e => s ≤ fromLeBytes8 e.key) = rest := by
          rw [List.filter_eq_self]
          intro b hb
          have h1 := he b hb
          simp only [decide_eq_true_eq]
          omega
        rw [hall]
      · simpa using Nat.le_of_not_lt hk

theorem foldr_max_append (l : List Nat) (a : Nat) :
    (l ++ [a]).foldr max 0 = max (l.foldr max 0) a := by
  induction l with
  | nil => simp
  | cons b rest ih => simp [List.foldr, ih, Nat.max_assoc]

theorem any_key_eq (ms : List (List Nat × AssetMetadata)) (u : List Nat) :
    ms.any (fun e => e.1 = u) = true ↔ u ∈ ms.map Prod.fst := by
  simp [List.any_eq_true, List.mem_map]

theorem insertIfAbsent_mem (ms : List (List Nat × AssetMetadata)) (u : List Nat)
    (m : AssetMetadata) (p : List Nat × AssetMetadata) :
    p ∈ insertIfAbsent ms u m ↔ p ∈ ms ∨ (p = (u, m) ∧ u ∉ ms.map Prod.fst) := by
  unfold insertIfAbsent
  by_cases hc : u ∈ ms.map Prod.fst
  · rw [if_pos ((any_key_eq ms u).mpr hc)]
    constructor
    · exact Or.inl
    · rintro (h | ⟨h1, h2⟩)
      · exact h
      · exact absurd hc h2
  · rw [if_neg (fun hcc => hc ((any_key_eq ms u).mp hcc))]
    rw [List.mem_append, List.mem_singleton]
    constructor
    · rintro (h | h)
      · exact Or.inl h
      · exact Or.inr ⟨h, hc⟩
    · rintro (h | ⟨h1, h2⟩)
      · exact Or.inl h
      · exact Or.inr h1

theorem insertIfAbsent_keys (ms : List (List Nat × AssetMetadata)) (u : List Nat)
    (m : AssetMetadata) (x : List Nat) :
    x ∈ (insertIfAbsent ms u m).map Prod.fst ↔ x ∈ ms.map Prod.fst ∨ x = u := by
  unfold insertIfAbsent
  by_cases hc : u ∈ ms.map Prod.fst
  · rw [if_pos ((any_key_eq ms u).mpr hc)]
    constructor
    · exact Or.inl
    · rintro (h | h)
      · exact h
      · exact h ▸ hc
  · rw [if_neg (fun hcc => hc ((any_key_eq ms u).mp hcc))]
    rw [List.map_append, List.mem_append]
    simp

theorem resolveRequested_mem (db : MetaDb) (ids : List (List Nat))
    (h16 : ∀ i ∈ ids, i.length = 16) :
    ∀ acc, ∃ ms, resolveRequested db acc ids = .ok ms ∧
      ∀ p : List Nat × AssetMetadata,
        p ∈ ms ↔ p ∈ acc ∨
          (p.1 ∈ ids ∧ dbGet db p.1 = some p.2 ∧ p.1 ∉ acc.map Prod.fst) := by
  induction ids with
  | nil =>
    intro acc
    exact ⟨acc, rfl, by simp⟩
  | cons i rest ih =>
    intro acc
    have hi : i.length = 16 := h16 i (List.mem_cons_self i rest)
    have h16r : ∀ j ∈ rest, j.length = 16 := fun j hj => h16 j (List.mem_cons_of_mem i hj)
    cases hd : dbGet db i with
    | none =>
      obtain ⟨ms, hms, hchar⟩ := ih h16r acc
      refine ⟨ms, by simp [resolveRequested, uuid_from_slice, hi, hd, hms], ?_⟩
      intro p
      rw [hchar p]
      constructor
      · rintro (h1 | ⟨h1, h2, h3⟩)
        · exact Or.inl h1
        · exact Or.inr ⟨List.mem_cons_of_mem _ h1, h2, h3⟩
      · rintro (h1 | ⟨h1, h2, h3⟩)
        · exact Or.inl h1
        · rcases List.mem_cons.mp h1 with he | he
          · rw [he] at h2
            rw [h2] at hd
            exact Option.noConfusion hd
          · exact Or.inr ⟨he, h2, h3⟩
    | some m =>
      obtain ⟨ms, hms, hchar⟩ := ih h16r (insertIfAbsent acc i m)
      refine ⟨ms, by simp [resolveRequested, uuid_from_slice, hi, hd, hms], ?_⟩
      intro p
      rw [hchar p, insertIfAbsent_mem, insertIfAbsent_keys]
      constructor
      · rintro ((h1 | ⟨h1, h2⟩) | ⟨h1, h2, h3⟩)
        · exact Or.inl h1
        · refine Or.inr ⟨?_, ?_, ?_⟩
          · rw [h1]
            exact List.mem_cons_self i rest
          · rw [h1]
            exact hd
          · rw [h1]
            exact h2
        · exact Or.inr ⟨List.mem_cons_of_mem _ h1, h2, fun hk => h3 (Or.inl hk)⟩
      · rintro (h1 | ⟨h1, h2, h3⟩)
        · exact Or.inl (Or.inl h1)
        · by_cases hpi : p.1 = i
          · refine Or.inl (Or.inr ⟨?_, ?_⟩)
            · have hm2 : p.2 = m := by
                have h4 := h2
                rw [hpi, hd] at h4
                exact (Option.some.inj h4).symm
              rw [← hpi, ← hm2]
            · rw [← hpi]
              exact h3
          · rcases List.mem_cons.mp h1 with he | he
            · exact absurd he hpi
            · exact Or.inr ⟨he, h2, fun hc => hc.elim h3 hpi⟩

theorem collectMissingFromDeps_ok (msKeys : List (List Nat)) (deps : List DbAssetRef)
    (hdeps : ∀ d ∈ deps, (expect_uuid d).isSome = true) :
    ∀ acc, ∃ out, collectMissingFromDeps msKeys acc deps = .ok out ∧
      ∀ x, x ∈ out ↔ x ∈ acc ∨ (DbAssetRef.uuid x ∈ deps ∧ x ∉ msKeys) := by
  induction deps with
  | nil =>
    intro acc
    exact ⟨acc, rfl, by simp⟩
  | cons d rest ih =>
    intro acc
    have hdr : ∀ d2 ∈ rest, (expect_uuid d2).isSome = true :=
      fun d2 h2 => hdeps d2 (List.mem_cons_of_mem d h2)
    cases d with
    | path q =>
      have := hdeps (.path q) (List.mem_cons_self _ rest)
      simp [expect_uuid] at this
    | uuid du =>
      by_cases hc : du ∈ msKeys ∨ du ∈ acc
      · obtain ⟨out, hout, hchar⟩ := ih hdr acc
        refine ⟨out, ?_, ?_⟩
        · simp only [collectMissingFromDeps, expect_uuid]
          rw [if_pos (by simpa using hc)]
          exact hout
        · intro x
          rw [hchar x]
          constructor
          · rintro (h1 | ⟨h1, h2⟩)
            · exact Or.inl h1
            · exact Or.inr ⟨List.mem_cons_of_mem _ h1, h2⟩
          · rintro (h1 | ⟨h1, h2⟩)
            · exact Or.inl h1
            · rcases List.mem_cons.mp h1 with he | he
              · have hx : x = du := DbAssetRef.uuid.inj he
                rcases hc with hc | hc
                · exact absurd (hx ▸ hc) h2
                · exact Or.inl (hx ▸ hc)
              · exact Or.inr ⟨he, h2⟩
      · obtain ⟨out, hout, hchar⟩ := ih hdr (acc ++ [du])
        push_neg at hc
        refine ⟨out, ?_, ?_⟩
        · simp only [collectMissingFromDeps, expect_uuid]
          rw [if_neg (by simpa using hc)]
          exact hout
        · intro x
          rw [hchar x, List.mem_append, List.mem_singleton]
          constructor
          · rintro ((h1 | h1) | ⟨h1, h2⟩)
            · exact Or.inl h1
            · refine Or.inr ⟨?_, h1 ▸ hc.1⟩
              rw [h1]
              exact List.mem_cons_self _ _
            · exact Or.inr ⟨List.mem_cons_of_mem _ h1, h2⟩
          · rintro (h1 | ⟨h1, h2⟩)
            · exact Or.inl (Or.inl h1)
            · rcases List.mem_cons.mp h1 with he | he
              · exact Or.inl (Or.inr (DbAssetRef.uuid.inj he))
              · exact Or.inr ⟨he, h2⟩

theorem collectMissingFromDeps_panic (msKeys : List (List Nat)) (deps : List DbAssetRef)
    (hbad : ∃ d ∈ deps, expect_uuid d = none) :
    ∀ acc, collectMissingFromDeps msKeys acc deps = .panic := by
  induction deps with
  | nil => simp at hbad
  | cons d rest ih =>
    intro acc
    cases hd : expect_uuid d with
    | none => simp [collectMissingFromDeps, hd]
    | some du =>
      have hbr : ∃ d2 ∈ rest, expect_uuid d2 = none := by
        rcases hbad with ⟨d2, h2, hn⟩
        rcases List.mem_cons.mp h2 with he | he
        · rw [he, hd] at hn
          exact Option.noConfusion hn
        · exact ⟨d2, he, hn⟩
      simp only [collectMissingFromDeps, hd]
      split
      · exact ih hbr acc
      · exact ih hbr (acc ++ [du])

theorem collectMissing_ok (msKeys : List (List Nat))
    (vals : List (List Nat × AssetMetadata))
    (h : ∀ p ∈ vals, ∀ d ∈ depsOf p.2, (expect_uuid d).isSome = true) :
    ∀ acc, ∃ out, collectMissing msKeys acc vals = .ok out ∧
      ∀ x, x ∈ out ↔ x ∈ acc ∨
        (∃ p ∈ vals, DbAssetRef.uuid x ∈ depsOf p.2 ∧ x ∉ msKeys) := by
  induction vals with
  | nil =>
    intro acc
    exact ⟨acc, rfl, by simp⟩
  | cons p rest ih =>
    intro acc
    obtain ⟨acc2, hacc2, hchar1⟩ :=
      collectMissingFromDeps_ok msKeys (depsOf p.2) (h p (List.mem_cons_self p rest)) acc
    obtain ⟨out, hout, hchar2⟩ :=
      ih (fun q hq => h q (List.mem_cons_of_mem p hq)) acc2
    refine ⟨out, by simp [collectMissing, hacc2, hout], ?_⟩
    intro x
    rw [hchar2 x, hchar1 x, List.exists_mem_cons_iff]
    tauto

theorem collectMissing_panic (msKeys : List (List Nat))
    (vals : List (List Nat × AssetMetadata))
    (hbad : ∃ p ∈ vals, ∃ d ∈ depsOf p.2, expect_uuid d = none) :
    ∀ acc, collectMissing msKeys acc vals = .panic := by
  induction vals with
  | nil => simp at hbad
  | cons p rest ih =>
    intro acc
    by_cases hp : ∃ d ∈ depsOf p.2, expect_uuid d = none
    · simp [collectMissing, collectMissingFromDeps_panic msKeys (depsOf p.2) hp acc]
    · have hclean : ∀ d ∈ depsOf p.2, (expect_uuid d).isSome = true := by
        intro d hd
        cases he : expect_uuid d with
        | none => exact absurd ⟨d, hd, he⟩ hp
        | some v => rfl
      obtain ⟨acc2, hacc2, _⟩ := collectMissingFromDeps_ok msKeys (depsOf p.2) hclean acc
      have hbr : ∃ q ∈ rest, ∃ d ∈ depsOf q.2, expect_uuid d = none := by
        rcases hbad with ⟨q, hq, hd⟩
        rcases List.mem_cons.mp hq with he | he
        · exact absurd (he ▸ hd) hp
        · exact ⟨q, he, hd⟩
      simp [collectMissing, hacc2, ih hbr acc2]

theorem resolveMissing_mem (db : MetaDb) (missing : List (List Nat)) :
    ∀ ms, ∀ p : List Nat × AssetMetadata,
      p ∈ resolveMissing db ms missing ↔
        p ∈ ms ∨
          (p.1 ∈ missing ∧ dbGet db p.1 = some p.2 ∧ p.1 ∉ ms.map Prod.fst) := by
  induction missing with
  | nil => simp [resolveMissing]
  | cons d rest ih =>
    intro ms p
    cases hd : dbGet db d with
    | none =>
      rw [show resolveMissing db ms (d :: rest) = resolveMissing db ms rest from by
        simp [resolveMissing, hd]]
      rw [ih ms p]
      constructor
      · rintro (h1 | ⟨h1, h2, h3⟩)
        · exact Or.inl h1
        · exact Or.inr ⟨List.mem_cons_of_mem _ h1, h2, h3⟩
      · rintro (h1 | ⟨h1, h2, h3⟩)
        · exact Or.inl h1
        · rcases List.mem_cons.mp h1 with he | he
          · rw [he] at h2
            rw [h2] at hd
            exact Option.noConfusion hd
          · exact Or.inr ⟨he, h2, h3⟩
    | some m =>
      rw [show resolveMissing db ms (d :: rest) =
          resolveMissing db (insertIfAbsent ms d m) rest from by
        simp [resolveMissing, hd]]
      rw [ih (insertIfAbsent ms d m) p, insertIfAbsent_mem, insertIfAbsent_keys]
      constructor
      · rintro ((h1 | ⟨h1, h2⟩) | ⟨h1, h2, h3⟩)
        · exact Or.inl h1
        · refine Or.inr ⟨?_, ?_, ?_⟩
          · rw [h1]
            exact List.mem_cons_self d rest
          · rw [h1]
            exact hd
          · rw [h1]
            exact h2
        · exact Or.inr ⟨List.mem_cons_of_mem _ h1, h2, fun hk => h3 (Or.inl hk)⟩
      · rintro (h1 | ⟨h1, h2, h3⟩)
        · exact Or.inl (Or.inl h1)
        · by_cases hpi : p.1 = d
          · refine Or.inl (Or.inr ⟨?_, ?_⟩)
            · have hm2 : p.2 = m := by
                have h4 := h2
                rw [hpi, hd] at h4
                exact (Option.some.inj h4).symm
              rw [← hpi, ← hm2]
            · rw [← hpi]
              exact h3
          · rcases List.mem_cons.mp h1 with he | he
            · exact absurd he hpi
            · exact Or.inr ⟨he, h2, fun hc => hc.elim h3 hpi⟩

/-- C1: a snapshot pins one read state for its whole lifetime, so for
any snapshot pinned on state `st` before a writer commits batch `b`:
the snapshot's `getLatestAssetChange` is below `b`'s sequence number,
and `getAssetMetadata` on the snapshot returns empty for an asset `x`
introduced by `b` — even though after the commit `x` resolves. -/
theorem C1_snapshot_isolation (st : CommittedState) (b : Batch) (x : List Nat)
    (m : AssetMetadata)
    (h16 : x.length = 16)
    (hfresh : dbGet st.metaDb x = none)
    (hintro : (x, m) ∈ b.newAssets)
    (hseq : batchSeq st < 2 ^ 64) :
    get_latest_asset_change st < batchSeq st ∧
    get_asset_metadata st.metaDb [x] = .ok [] ∧
    get_latest_asset_change (commitBatch st b) = batchSeq st ∧
    (dbGet (commitBatch st b).metaDb x).isSome = true := by
  refine ⟨Nat.lt_succ_self _, ?_, ?_, ?_⟩
  · rw [get_asset_metadata_eq st.metaDb [x]
      (fun i hi => (List.mem_singleton.mp hi) ▸ h16)]
    simp [hfresh]
  · show ((st.changeLog ++ [({ key := toLeBytes8 (batchSeq st), payload := 0 } : ChangeLogEntry)]).map
      (fun e => fromLeBytes8 e.key)).foldr max 0 = batchSeq st
    rw [List.map_append, List.map_cons, List.map_nil, foldr_max_append,
      fromLe_toLe _ hseq]
    exact Nat.max_eq_right (Nat.le_succ _)
  · show (dbGet (st.metaDb ++ b.newAssets) x).isSome = true
    rw [dbGet_append st.metaDb b.newAssets x hfresh]
    exact dbGet_isSome_of_mem _ _ _ hintro

/-- C2: the claim that the accept loop wires the tuned TCP stream's
read/write halves to the spawned RPC system is false on the code: the
socket options are applied (Nagle off, 4 MiB buffers), but the
endpoints passed to `spawn_rpc` are the two halves of a fresh
in-memory `utils::async_channel()`, not the stream's halves; the
stream is dropped. This theorem evaluates the embedded accept-loop
body. -/
theorem C2_connection_wiring_bug :
    accept_connection.socket.nodelay = true ∧
    accept_connection.socket.sendBufferSize = 4 * 1024 * 1024 ∧
    accept_connection.socket.recvBufferSize = 4 * 1024 * 1024 ∧
    accept_connection.rpcReader = IoEndpoint.asyncChannelRead ∧
    accept_connection.rpcWriter = IoEndpoint.asyncChannelWrite ∧
    ¬ accept_connection.rpcReader = IoEndpoint.tcpStreamRead ∧
    ¬ accept_connection.rpcWriter = IoEndpoint.tcpStreamWrite := by
  decide

/-- C3 (amended): if any requested id's byte length is not 16, the
whole RPC fails and the response carries no partial results, for all
four id-taking snapshot queries; the error is `UuidLength`
(`InvalidIdLength`) for `getAssetMetadata`,
`getAssetMetadataWithDependencies` and `getPathForAssets`
unconditionally, and for `getImportArtifacts` whenever no earlier
valid id's artifact regeneration fails first (regeneration runs inside
the same validation loop and its error can pre-empt the length
check). -/
theorem C3_invalid_id_fails_rpc (db : MetaDb) (pdb : List Nat → Option (List Nat))
    (regen : List Nat → Except Error SerializedAsset) (ids : List (List Nat))
    (hbad : ∃ i ∈ ids, ¬ i.length = 16) :
    get_asset_metadata db ids = .err .UuidLength ∧
    get_asset_metadata_with_dependencies db ids = .err .UuidLength ∧
    get_path_for_assets pdb ids = .err .UuidLength ∧
    (∃ e, get_import_artifacts db regen ids = .err e) ∧
    ((∀ u, ∃ a, regen u = .ok a) →
      get_import_artifacts db regen ids = .err .UuidLength) :=
  ⟨get_asset_metadata_err db ids hbad,
   get_asset_metadata_with_dependencies_err db ids hbad,
   get_path_for_assets_err pdb ids hbad,
   get_import_artifacts_err db regen ids hbad,
   fun hok => get_import_artifacts_err_uuid db regen ids hok hbad⟩

/-- C3 (counterexample): with a well-formed first id whose artifact
regeneration fails and a second id of length 1, `getImportArtifacts`
fails with the regeneration error, not with `UuidLength`, although a
requested id has byte length ≠ 16 — refuting the claim that the RPC
then fails with the `InvalidIdLength` error. -/
theorem C3_invalid_id_counterexample :
    ¬ ([0] : List Nat).length = 16 ∧
    get_import_artifacts regenFailDb regenFail [sampleId 1, [0]] = .err .RegenError ∧
    ¬ (Error.RegenError = Error.UuidLength) := by
  decide

/-- C4: for well-formed 16-byte ids, `getAssetMetadata` succeeds and
returns exactly the records of the resolvable ids (misses silently
dropped, in input order), so the output length is at most the input
length and every returned record's id is an element of the input. -/
theorem C4_metadata_query_sound (db : MetaDb) (ids : List (List Nat))
    (h16 : ∀ i ∈ ids, i.length = 16) (hco : dbCoherent db) :
    ∃ out, get_asset_metadata db ids = .ok out ∧
      out.length ≤ ids.length ∧
      (∀ m ∈ out, m.id ∈ ids) ∧
      out = ids.filterMap (fun i => dbGet db i) := by
  refine ⟨ids.filterMap (fun i => dbGet db i), get_asset_metadata_eq db ids h16,
    List.length_filterMap_le _ _, ?_, rfl⟩
  intro m hm
  rw [List.mem_filterMap] at hm
  obtain ⟨i, hi, hdb⟩ := hm
  have hid : m.id = i := hco (i, m) (dbGet_mem hdb)
  rw [hid]
  exact hi

/-- C6: `getAssetChanges(start, count)` iterates the change log from
the key equal to the 8-byte little-endian encoding of `start`,
inclusive, in key order, returning at most `count` entries, and all
remaining entries when `count = 0`. -/
theorem C6_changes_window (log : List ChangeLogEntry) (start count : Nat)
    (hs : log.Pairwise (fun a b => fromLeBytes8 a.key < fromLeBytes8 b.key))
    (hstart : start < 2 ^ 64) (hlen : log.length < 2 ^ 64) :
    get_asset_changes log start count =
      if count = 0 then log.filter (fun e => start ≤ fromLeBytes8 e.key)
      else (log.filter (fun e => start ≤ fromLeBytes8 e.key)).take count := by
  unfold get_asset_changes changes_iter_from
  simp only [fromLe_toLe start hstart]
  rw [dropWhile_lt_eq_filter start log hs]
  by_cases hc : count = 0
  · rw [if_pos hc, if_pos hc]
    apply List.take_of_length_le
    have := List.length_filter_le (fun e => decide (start ≤ fromLeBytes8 e.key)) log
    unfold usizeMax
    omega
  · rw [if_neg hc, if_neg hc]

/-- C8: every `registerListener` call allocates a bounded delivery
queue of capacity 16, immediately enqueues one synthetic `Commit`
event into it without panicking, and registers the queue sender with
the hub, so the spawned delivery loop starts with one pending event. -/
theorem C8_register_listener_queue (h : HubListeners) :
    ∃ h2 id c, register_listener h = some (h2, id, c) ∧
      c.capacity = 16 ∧
      c.buffer = [AssetBatchEvent.Commit] ∧
      h2.listeners = h.listeners ++ [(id, c)] := by
  refine ⟨⟨h.nextId + 1, h.listeners ++ [(h.nextId, ⟨16, [AssetBatchEvent.Commit]⟩)]⟩,
    h.nextId, ⟨16, [AssetBatchEvent.Commit]⟩, ?_, rfl, rfl, rfl⟩
  rfl

/-- C9: in the per-listener delivery loop, a failed `update` send
makes the loop call `drop_listener` and exit as `sendFailed` after
exactly the sends up to and including the failing one (no retry);
when the queue closes instead, the loop exits cleanly as
`queueClosed` with the registry untouched. -/
theorem C9_delivery_loop_exit (h : HubListeners) (id : Nat) (pre post : List Bool)
    (hpre : false ∉ pre) :
    delivery_loop h id (pre ++ false :: post) =
      (drop_listener h id, .sendFailed, pre.length + 1) ∧
    delivery_loop h id pre = (h, .queueClosed, pre.length) := by
  induction pre with
  | nil => exact ⟨rfl, rfl⟩
  | cons sb rest ih =>
    have hsb : sb = true := by
      cases sb
      · exact absurd (List.mem_cons_self false rest) hpre
      · rfl
    subst hsb
    have hrest : false ∉ rest := fun hc => hpre (List.mem_cons_of_mem _ hc)
    obtain ⟨ih1, ih2⟩ := ih hrest
    constructor
    · simp [delivery_loop, List.cons_append, ih1]
    · simp [delivery_loop, ih2]

/-- C5: for well-formed ids over a coherent store whose dependency
references are all uuid-variant, `getAssetMetadataWithDependencies`
succeeds and its output is exactly (as a set of ids) the union of the
resolved requested assets and, one hop only, the resolvable assets
named in each resolved requested asset's latest artifact's
`load_deps` — matching the spec-side definition `specWithDepsIds`, so
dependencies of dependencies are never included. -/
theorem C5_one_hop_closure (db : MetaDb) (ids : List (List Nat))
    (h16 : ∀ i ∈ ids, i.length = 16)
    (hdeps : ∀ e ∈ db, ∀ d ∈ depsOf e.2, (expect_uuid d).isSome = true)
    (hco : dbCoherent db) :
    ∃ out, get_asset_metadata_with_dependencies db ids = .ok out ∧
      ∀ x, (∃ m ∈ out, m.id = x) ↔ specWithDepsIds db ids x := by
  obtain ⟨ms, hms, hchar⟩ := resolveRequested_mem db ids h16 []
  have hmsP : ∀ p : List Nat × AssetMetadata,
      p ∈ ms ↔ p.1 ∈ ids ∧ dbGet db p.1 = some p.2 := by
    intro p
    rw [hchar p]
    simp
  have hmsdeps : ∀ p ∈ ms, ∀ d ∈ depsOf p.2, (expect_uuid d).isSome = true := by
    intro p hp d hd
    have h2 := (hmsP p).mp hp
    exact hdeps (p.1, p.2) (dbGet_mem h2.2) d hd
  obtain ⟨missing, hmiss, hmchar⟩ := collectMissing_ok (ms.map Prod.fst) ms hmsdeps []
  have hkeys : ∀ x, x ∈ ms.map Prod.fst ↔ x ∈ ids ∧ (dbGet db x).isSome = true := by
    intro x
    rw [List.mem_map]
    constructor
    · rintro ⟨p, hp, hx⟩
      have h2 := (hmsP p).mp hp
      rw [← hx]
      exact ⟨h2.1, by rw [h2.2]; rfl⟩
    · rintro ⟨hx, hs⟩
      obtain ⟨m, hm⟩ := Option.isSome_iff_exists.mp hs
      exact ⟨(x, m), (hmsP (x, m)).mpr ⟨hx, hm⟩, rfl⟩
  refine ⟨(resolveMissing db ms missing).map Prod.snd, ?_, ?_⟩
  · simp [get_asset_metadata_with_dependencies, hms, hmiss]
  · intro x
    have hfin := resolveMissing_mem db missing ms
    constructor
    · rintro ⟨m, hm, hid⟩
      rw [List.mem_map] at hm
      obtain ⟨p, hp, hpm⟩ := hm
      have hget : dbGet db p.1 = some p.2 := by
        rcases (hfin p).mp hp with h1 | ⟨_, h2, _⟩
        · exact ((hmsP p).mp h1).2
        · exact h2
      have hpx : p.1 = x := by
        have := hco (p.1, p.2) (dbGet_mem hget)
        rw [← hid, ← hpm]
        exact this.symm
      rcases (hfin p).mp hp with h1 | ⟨h1, _, _⟩
      · have h2 := (hmsP p).mp h1
        exact ⟨by rw [← hpx, h2.2]; rfl, Or.inl (hpx ▸ h2.1)⟩
      · have h3 := (hmchar p.1).mp h1
        simp only [List.mem_nil_iff, false_or] at h3
        obtain ⟨q, hq, hdep, _⟩ := h3
        have hq2 := (hmsP q).mp hq
        refine ⟨by rw [← hpx, hget]; rfl, Or.inr ⟨q.1, hq2.1, q.2, hq2.2, hpx ▸ hdep⟩⟩
    · rintro ⟨hsome, hcase⟩
      obtain ⟨m, hm⟩ := Option.isSome_iff_exists.mp hsome
      have hmid : m.id = x := hco (x, m) (dbGet_mem hm)
      refine ⟨m, ?_, hmid⟩
      rw [List.mem_map]
      refine ⟨(x, m), ?_, rfl⟩
      rw [hfin (x, m)]
      by_cases hxms : (x, m) ∈ ms
      · exact Or.inl hxms
      · rcases hcase with hx | ⟨u, hu, m2, hm2, hdep⟩
        · exact absurd ((hmsP (x, m)).mpr ⟨hx, hm⟩) hxms
        · have hnk : x ∉ ms.map Prod.fst := by
            intro hk
            exact hxms ((hmsP (x, m)).mpr ⟨((hkeys x).mp hk).1, hm⟩)
          refine Or.inr ⟨?_, hm, hnk⟩
          rw [hmchar x]
          exact Or.inr ⟨(u, m2), (hmsP (u, m2)).mpr ⟨hu, hm2⟩, hdep, hnk⟩

/-- C7 (amended): for well-formed ids, `getPathForAssets` succeeds,
pairs with no source path are omitted, and each emitted path is the
UTF-8-lossy conversion (`Path::to_string_lossy`) of the source path's
bytes — equal to the raw bytes exactly when the path is valid UTF-8,
but converted (with U+FFFD replacements), not emitted raw, in
general. -/
theorem C7_path_emission (pdb : List Nat → Option (List Nat)) (ids : List (List Nat))
    (h16 : ∀ i ∈ ids, i.length = 16) :
    get_path_for_assets pdb ids =
      .ok (ids.filterMap (fun i => (pdb i).map (fun p => (i, utf8Lossy p)))) ∧
    (∀ p : List Nat, validUtf8 p = true → utf8Lossy p = p) :=
  ⟨get_path_for_assets_eq pdb ids h16, utf8Lossy_of_valid⟩

/-- C7 (counterexample): a source path consisting of the single byte
`0xFF` (not valid UTF-8) is emitted as the three-byte UTF-8 encoding
of U+FFFD, not as its raw bytes — refuting the claim that the emitted
path equals the source path's raw bytes with no conversion. -/
theorem C7_path_lossy_counterexample :
    get_path_for_assets lossyPathDb [sampleId 2] =
      .ok [(sampleId 2, [239, 191, 189])] ∧
    ¬ ([239, 191, 189] : List Nat) = [255] := by
  decide

/-- C10: with well-formed requested ids, if any requested id resolves
to a record whose latest artifact's `load_deps` contains a non-uuid
reference, `getAssetMetadataWithDependencies` panics (via
`expect_uuid`), rather than returning an error or skipping the
entry. -/
theorem C10_non_uuid_dep_panics (db : MetaDb) (ids : List (List Nat))
    (h16 : ∀ i ∈ ids, i.length = 16)
    (hbad : ids.any (fun i => hasNonUuidDep db i) = true) :
    get_asset_metadata_with_dependencies db ids = .panic := by
  obtain ⟨ms, hms, hchar⟩ := resolveRequested_mem db ids h16 []
  rw [List.any_eq_true] at hbad
  obtain ⟨i, hi, hbd⟩ := hbad
  unfold hasNonUuidDep at hbd
  cases hd : dbGet db i with
  | none => rw [hd] at hbd; simp at hbd
  | some m =>
    rw [hd] at hbd
    simp only [List.any_eq_true] at hbd
    obtain ⟨d, hdm, hdn⟩ := hbd
    have hdnone : expect_uuid d = none := by
      cases he : expect_uuid d
      · rfl
      · rw [he] at hdn; simp at hdn
    have hmem : (i, m) ∈ ms := (hchar (i, m)).mpr (Or.inr ⟨hi, hd, by simp⟩)
    have hpanic :=
      collectMissing_panic (ms.map Prod.fst) ms ⟨(i, m), hmem, d, hdm, hdnone⟩ []
    simp [get_asset_metadata_with_dependencies, hms, hpanic]

/-- Witness for C1 at a concrete pre-commit state and batch. -/
theorem C1_snapshot_isolation_witness :
    ((sampleId 5).length = 16 ∧
     dbGet sampleState.metaDb (sampleId 5) = none ∧
     (sampleId 5, (⟨sampleId 5, .File, none⟩ : AssetMetadata)) ∈ sampleBatch.newAssets ∧
     batchSeq sampleState < 2 ^ 64) ∧
    (get_latest_asset_change sampleState < batchSeq sampleState ∧
     get_asset_metadata sampleState.metaDb [sampleId 5] = .ok [] ∧
     get_latest_asset_change (commitBatch sampleState sampleBatch) = batchSeq sampleState ∧
     (dbGet (commitBatch sampleState sampleBatch).metaDb (sampleId 5)).isSome = true) :=
  ⟨⟨by decide, by decide, by decide, by decide⟩,
   C1_snapshot_isolation sampleState sampleBatch (sampleId 5) ⟨sampleId 5, .File, none⟩
     (by decide) (by decide) (by decide) (by decide)⟩

/-- Witness for the amended C3 at a concrete request holding one
well-formed and one short id. -/
theorem C3_invalid_id_fails_rpc_witness :
    (∃ i ∈ [sampleId 1, ([0] : List Nat)], ¬ i.length = 16) ∧
    (get_asset_metadata lookupDb [sampleId 1, [0]] = .err .UuidLength ∧
     get_asset_metadata_with_dependencies lookupDb [sampleId 1, [0]] = .err .UuidLength ∧
     get_path_for_assets emptyPathDb [sampleId 1, [0]] = .err .UuidLength ∧
     (∃ e, get_import_artifacts lookupDb okRegen [sampleId 1, [0]] = .err e) ∧
     ((∀ u, ∃ a, okRegen u = .ok a) →
       get_import_artifacts lookupDb okRegen [sampleId 1, [0]] = .err .UuidLength)) :=
  ⟨by decide,
   C3_invalid_id_fails_rpc lookupDb emptyPathDb okRegen [sampleId 1, [0]] (by decide)⟩

/-- Witness for C4 at a concrete store and a request holding one
present and one absent id. -/
theorem C4_metadata_query_sound_witness :
    ((∀ i ∈ [sampleId 11, sampleId 13], i.length = 16) ∧ dbCoherent lookupDb) ∧
    (∃ out, get_asset_metadata lookupDb [sampleId 11, sampleId 13] = .ok out ∧
      out.length ≤ [sampleId 11, sampleId 13].length ∧
      (∀ m ∈ out, m.id ∈ [sampleId 11, sampleId 13]) ∧
      out = [sampleId 11, sampleId 13].filterMap (fun i => dbGet lookupDb i)) :=
  ⟨⟨by decide, by decide⟩,
   C4_metadata_query_sound lookupDb [sampleId 11, sampleId 13] (by decide) (by decide)⟩

/-- Witness for C5 at the concrete store where `R` depends on `D1`
and `D2` and `D1` depends on `D3`. -/
theorem C5_one_hop_closure_witness :
    ((∀ i ∈ [sampleId 6], i.length = 16) ∧
     (∀ e ∈ oneHopDb, ∀ d ∈ depsOf e.2, (expect_uuid d).isSome = true) ∧
     dbCoherent oneHopDb) ∧
    (∃ out, get_asset_metadata_with_dependencies oneHopDb [sampleId 6] = .ok out ∧
      ∀ x, (∃ m ∈ out, m.id = x) ↔ specWithDepsIds oneHopDb [sampleId 6] x) :=
  ⟨⟨by decide, by decide, by decide⟩,
   C5_one_hop_closure oneHopDb [sampleId 6] (by decide) (by decide) (by decide)⟩

/-- Witness for C6 at a concrete three-entry change log. -/
theorem C6_changes_window_witness :
    (sampleLog.Pairwise (fun a b => fromLeBytes8 a.key < fromLeBytes8 b.key) ∧
     2 < 2 ^ 64 ∧ sampleLog.length < 2 ^ 64) ∧
    get_asset_changes sampleLog 2 0 =
      (if (0 : Nat) = 0 then sampleLog.filter (fun e => 2 ≤ fromLeBytes8 e.key)
       else (sampleLog.filter (fun e => 2 ≤ fromLeBytes8 e.key)).take 0) :=
  ⟨⟨by decide, by decide, by decide⟩,
   C6_changes_window sampleLog 2 0 (by decide) (by decide) (by decide)⟩

/-- Witness for the amended C7 at a concrete ASCII-path store. -/
theorem C7_path_emission_witness :
    (∀ i ∈ [sampleId 3], i.length = 16) ∧
    (get_path_for_assets asciiPathDb [sampleId 3] =
      .ok ([sampleId 3].filterMap (fun i => (asciiPathDb i).map (fun p => (i, utf8Lossy p)))) ∧
     (∀ p : List Nat, validUtf8 p = true → utf8Lossy p = p)) :=
  ⟨by decide, C7_path_emission asciiPathDb [sampleId 3] (by decide)⟩

/-- Witness for C9 at a concrete registry, with one successful send
followed by a failing one, and with a clean queue close. -/
theorem C9_delivery_loop_exit_witness :
    (false ∉ [true]) ∧
    (delivery_loop sampleHub 0 ([true] ++ false :: []) =
      (drop_listener sampleHub 0, .sendFailed, [true].length + 1) ∧
     delivery_loop sampleHub 0 [true] = (sampleHub, .queueClosed, [true].length)) :=
  ⟨by decide, C9_delivery_loop_exit sampleHub 0 [true] [] (by decide)⟩

/-- Witness for C10 at a concrete store whose single asset carries a
path-variant dependency reference. -/
theorem C10_non_uuid_dep_panics_witness :
    ((∀ i ∈ [sampleId 10], i.length = 16) ∧
     [sampleId 10].any (fun i => hasNonUuidDep nonUuidDepDb i) = true) ∧
    get_asset_metadata_with_dependencies nonUuidDepDb [sampleId 10] = .panic :=
  ⟨⟨by decide, by decide⟩,
   C10_non_uuid_dep_panics nonUuidDepDb [sampleId 10] (by decide) (by decide)⟩

end AtelierService
